import Mathlib

set_option maxRecDepth 20000
set_option maxHeartbeats 1000000

/-!
Shallow embedding of the inventory-management repository.

The embedded code comes from three Python sources:
* `mcp-server/app/main.py` — the pattern extractor, the clarification
  engine, and the per-turn conversation-state handling of `process_query`;
* `mcp-server/app/inventory.py` — the HTTP client (`get_inventory`,
  `update_inventory`, `safe_update_inventory`);
* `inventory-service/src/inventory/app.py` — the `InventoryManager`
  singleton service.

The Python code is regex-driven, so the embedding begins with a small
backtracking matcher for exactly the regex features the sources use:
ordered alternation, literals, greedy `*`/`+`/`?` over character classes,
the bounded loops `(?:\s+\w+)*` and `(?:\w+\s+)*`, word boundaries, one
negative lookahead, and digit/sign capture groups.  A matcher returns the
list of all ways to match a prefix of the input, in Python's backtracking
preference order (greedy first, alternatives in written order), so
`re.search` / `re.finditer` are the first element of that list at the
leftmost viable position.
-/

namespace InventoryRepo

/-- Python `\s` (the ASCII whitespace characters recognised by `re`). -/
def pyIsSpace (c : Char) : Bool :=
  c = ' ' || c = '\t' || c = '\n' || c = '\r' || c = '\x0b' || c = '\x0c'

/-- Python `\w` word character (ASCII: letters, digits, underscore). -/
def pyIsWord (c : Char) : Bool := c.isAlphanum || c = '_'

/-- Result of matching a regex fragment against a prefix of the input:
the last consumed character (needed by later word boundaries), the
remaining input, and the values of the digit / sign capture groups. -/
structure MRes where
  prev : Option Char
  rest : List Char
  q : Option Nat := none
  sign : Option Char := none
deriving Repr, DecidableEq

/-- A regex-fragment matcher: given the character preceding the current
position and the remaining input, all ways to match a prefix of the
input, in backtracking preference order. -/
abbrev M : Type := Option Char → List Char → List MRes

/-- Concatenation of the per-element result lists (kept as a plain
recursive definition so its equations are convenient in proofs). -/
def mjoin {α β : Type} (f : α → List β) : List α → List β
  | [] => []
  | x :: xs => f x ++ mjoin f xs

/-- The empty fragment: matches nothing, consumes nothing. -/
def mEps : M := fun prev cs => [⟨prev, cs, none, none⟩]

/-- Combine the capture groups of two sequential fragment results. -/
def mergeR (r1 r2 : MRes) : MRes :=
  ⟨r2.prev, r2.rest, r2.q <|> r1.q, r2.sign <|> r1.sign⟩

/-- Sequential composition of fragments. -/
def mseq (m1 m2 : M) : M := fun prev cs =>
  mjoin (fun r1 => (m2 r1.prev r1.rest).map (fun r2 => mergeR r1 r2)) (m1 prev cs)

/-- Sequence a list of fragments. -/
def mseqL (ms : List M) : M := ms.foldr mseq mEps

/-- Ordered alternation: results of earlier alternatives come first. -/
def altM (ms : List M) : M := fun prev cs => mjoin (fun m => m prev cs) ms

/-- A literal string. -/
def litM (s : String) : M := fun prev cs =>
  let l := s.toList
  if l.isPrefixOf cs then [⟨l.getLast? <|> prev, cs.drop l.length, none, none⟩] else []

/-- Ordered alternation of literal strings. -/
def litAlt (ss : List String) : M := altM (ss.map litM)

/-- Greedy `p+` for a character class `p`: every nonempty prefix of the
maximal run, longest first. -/
def predPlus (p : Char → Bool) : M := fun prev cs =>
  let n := (cs.takeWhile p).length
  (List.range n).map (fun i =>
    let k := n - i
    ⟨(cs.take k).getLast? <|> prev, cs.drop k, none, none⟩)

/-- Greedy `p*`: like `p+` but also the empty match, last. -/
def predStar (p : Char → Bool) : M := fun prev cs =>
  predPlus p prev cs ++ [⟨prev, cs, none, none⟩]

/-- Numeric value of a digit run. -/
def digitsVal (l : List Char) : Nat := l.foldl (fun a c => a * 10 + (c.toNat - 48)) 0

/-- The capture group `(\d+)`.  In every pattern of the source the regex
component following `(\d+)` cannot begin with a digit, so the
backtracking alternatives that capture a strict prefix of the digit run
never extend to a full match; only the maximal run is produced. -/
def capDigits : M := fun prev cs =>
  let run := cs.takeWhile Char.isDigit
  if run.isEmpty then []
  else [⟨run.getLast? <|> prev, cs.drop run.length, some (digitsVal run), none⟩]

/-- The capture group `([+-])`. -/
def capSign : M := fun _ cs =>
  match cs with
  | c :: rest => if c = '+' || c = '-' then [⟨some c, rest, none, some c⟩] else []
  | [] => []

/-- Is an optional character a word character (`none` = text edge)? -/
def isWordOpt : Option Char → Bool
  | some c => pyIsWord c
  | none => false

/-- The word boundary `\b`. -/
def wordB : M := fun prev cs =>
  if isWordOpt prev ≠ isWordOpt cs.head? then [⟨prev, cs, none, none⟩] else []

/-- Negative lookahead `(?! r)`. -/
def nla (m : M) : M := fun prev cs =>
  if (m prev cs).isEmpty then [⟨prev, cs, none, none⟩] else []

/-- Greedy `body*` with explicit fuel (every body in the sources consumes
at least one character, so fuel `length + 1` is exhaustive).  An
iteration that consumes nothing is not repeated, matching `re`'s
empty-loop protection. -/
def starM : Nat → M → M
  | 0, _ => fun prev cs => [⟨prev, cs, none, none⟩]
  | fuel + 1, body => fun prev cs =>
    mjoin (fun r =>
        if r.rest.length < cs.length then
          (starM fuel body r.prev r.rest).map (fun r2 => mergeR r r2)
        else []) (body prev cs)
      ++ [⟨prev, cs, none, none⟩]

/-- Greedy `body*` with the fuel chosen from the input length. -/
def starOf (body : M) : M := fun prev cs => starM (cs.length + 1) body prev cs

/-- `re.search`: first match, scanning start positions left to right. -/
def searchGo (m : M) : Option Char → List Char → Option MRes
  | prev, [] =>
    match m prev [] with
    | r :: _ => some r
    | [] => none
  | prev, c :: rest =>
    match m prev (c :: rest) with
    | r :: _ => some r
    | [] => searchGo m (some c) rest

/-- `re.search` on a whole input. -/
def searchM (m : M) (cs : List Char) : Option MRes := searchGo m none cs

/-- Whether `re.search` succeeds. -/
def searchB (m : M) (cs : List Char) : Bool := (searchM m cs).isSome

/-- `re.finditer`: repeated non-overlapping searches, resuming after the
end of each match. -/
def finditerGo (m : M) : Nat → Option Char → List Char → List MRes
  | 0, _, _ => []
  | fuel + 1, prev, cs =>
    match searchGo m prev cs with
    | none => []
    | some r =>
      r :: (if r.rest.length < cs.length then finditerGo m fuel r.prev r.rest else [])

/-- `re.finditer` on a whole input. -/
def finditerM (m : M) (cs : List Char) : List MRes :=
  finditerGo m (cs.length + 1) none cs

/-! ## Patterns of `mcp-server/app/main.py` -/

/-- `(?:t-?shirts?|shirts?|tees?)`, expanded in `re`'s preference order
(alternatives in written order, greedy optional parts first). -/
def shirtNouns : M :=
  litAlt ["t-shirts", "t-shirt", "tshirts", "tshirt", "shirts", "shirt", "tees", "tee"]

/-- `(?:pants?|trousers?)` expanded in preference order. -/
def pantsNouns : M := litAlt ["pants", "pant", "trousers", "trouser"]

/-- `(?:t-?shirts?|shirts?|tees?|pants?|trousers?)` of the symbol pattern. -/
def anyNouns : M :=
  litAlt ["t-shirts", "t-shirt", "tshirts", "tshirt", "shirts", "shirt", "tees", "tee",
    "pants", "pant", "trousers", "trouser"]

/-- `(?:\s+\w+)*` -/
def fillerWords : M := starOf (mseq (predPlus pyIsSpace) (predPlus pyIsWord))

/-- The common tail `(?:\s+\w+)*\s*NOUN` of the quantity patterns. -/
def qtyTail (noun : M) : M := mseqL [fillerWords, predStar pyIsSpace, noun]

/-- `(?:add|\+)\s*(\d+)(?:\s+\w+)*\s*NOUN` -/
def patAddSym (noun : M) : M :=
  mseqL [litAlt ["add", "+"], predStar pyIsSpace, capDigits, qtyTail noun]

/-- `(?:add|buy|bought|receive|received|get|got)\s+(\d+)(?:\s+\w+)*\s*NOUN` -/
def patAddVerb (noun : M) : M :=
  mseqL [litAlt ["add", "buy", "bought", "receive", "received", "get", "got"],
    predPlus pyIsSpace, capDigits, qtyTail noun]

/-- `(?:remove|-)\s*(\d+)(?:\s+\w+)*\s*NOUN` -/
def patRemSym (noun : M) : M :=
  mseqL [litAlt ["remove", "-"], predStar pyIsSpace, capDigits, qtyTail noun]

/-- `(?:remove|sell|sold|ship|shipped)\s+(\d+)(?:\s+\w+)*\s*NOUN` -/
def patRemVerb (noun : M) : M :=
  mseqL [litAlt ["remove", "sell", "sold", "ship", "shipped"],
    predPlus pyIsSpace, capDigits, qtyTail noun]

/-- `([+-])(\d+)(?:\s+\w+)*\s*(?:t-?shirts?|shirts?|tees?|pants?|trousers?)` -/
def symbolPat : M := mseqL [capSign, capDigits, qtyTail anyNouns]

/-- `what.*inventory` (`.` does not match a newline; `re.DOTALL` is unset). -/
def whatInv : M := mseqL [litM "what", predStar (fun c => c ≠ '\n'), litM "inventory"]

/-- `how many|what.*inventory|stock|do we have|current|tell me|show me|levels|count` -/
def checkVocabM : M :=
  altM [litM "how many", whatInv, litM "stock", litM "do we have", litM "current",
    litM "tell me", litM "show me", litM "levels", litM "count"]

/-- `add|remove|sell|sold|buy|bought|ship|receive|update|\+|-` -/
def actionGuardM : M :=
  litAlt ["add", "remove", "sell", "sold", "buy", "bought", "ship", "receive", "update",
    "+", "-"]

/-- `(?:shoes|socks|hats|caps|jackets|sweaters|hoodies)` -/
def unknownNouns : M :=
  litAlt ["shoes", "socks", "hats", "caps", "jackets", "sweaters", "hoodies"]

/-- `(?:\w+\s+)*` -/
def wordSpaceStar : M := starOf (mseq (predPlus pyIsWord) (predPlus pyIsSpace))

/-- `\b(\d+)\s*(?:\w+\s+)*(?:shoes|socks|hats|caps|jackets|sweaters|hoodies)\b` -/
def unknownPat : M :=
  mseqL [wordB, capDigits, predStar pyIsSpace, wordSpaceStar, unknownNouns, wordB]

/-- `\b(\d+)\b` of `handle_clarification_response`. -/
def standalonePat : M := mseqL [wordB, capDigits, wordB]

/-- The first standalone integer of a text (`re.search(r'\b(\d+)\b', query)`). -/
def firstStandaloneNat (s : String) : Option Nat :=
  (searchM standalonePat s.toList).bind (fun r => r.q)

/-- `(?:some|more|new|the|a|an)*` of `needs_quantity_clarification`. -/
def nqFillers : M := starOf (litAlt ["some", "more", "new", "the", "a", "an"])

/-- The trailing negative lookahead `(?!\s+\d+)`. -/
def nqNoDigitAfter : M := nla (mseq (predPlus pyIsSpace) (predPlus Char.isDigit))

/-- A `needs_quantity_clarification` pattern
`VERBS\s+(?:some|more|new|the|a|an)*\s*NOUN(?!\s+\d+)`. -/
def nqPat (verbs noun : M) : M :=
  mseqL [verbs, predPlus pyIsSpace, nqFillers, predStar pyIsSpace, noun, nqNoDigitAfter]

/-- `(?:add|buy|receive|get)` -/
def nqAddVerbs : M := litAlt ["add", "buy", "receive", "get"]

/-- `(?:remove|sell|sold|ship|delete)` -/
def nqRemVerbs : M := litAlt ["remove", "sell", "sold", "ship", "delete"]

/-- `re.search(r'\d+', text)` succeeds. -/
def hasDigit (cs : List Char) : Bool := cs.any Char.isDigit

/-- Python `text.lower()` (ASCII, which covers all vocabulary the
patterns inspect), as a character list. -/
def lowerChars (s : String) : List Char := s.toList.map Char.toLower

/-- The pattern table of `needs_quantity_clarification` (pattern, item, action),
in source order. -/
def nqcPatterns : List (M × String × String) :=
  [(nqPat nqAddVerbs shirtNouns, "tshirts", "add"),
   (nqPat nqAddVerbs pantsNouns, "pants", "add"),
   (nqPat nqRemVerbs shirtNouns, "tshirts", "remove"),
   (nqPat nqRemVerbs pantsNouns, "pants", "remove")]

/-- The `for pattern, item, action in patterns` loop of
`needs_quantity_clarification`: on the first matching pattern, return the
triple provided the whole text has no digit. -/
def nqcGo (q : List Char) : List (M × String × String) → Bool × Option String × Option String
  | [] => (false, none, none)
  | (m, item, action) :: rest =>
    if searchB m q then
      if !hasDigit q then (true, some item, some action) else nqcGo q rest
    else nqcGo q rest

/-- `needs_quantity_clarification` of `main.py`. -/
def needs_quantity_clarification (query : String) : Bool × Option String × Option String :=
  nqcGo (lowerChars query) nqcPatterns

/-- The operation model of `main.py` (`operation_type` plus its payload). -/
inductive Operation where
  | get
  | update (item : String) (change : Int)
  | unknown_item
deriving Repr, DecidableEq

/-- Is an operation an update? (`op.operation_type == "update"`). -/
def isUpdateOp : Operation → Bool
  | .update _ _ => true
  | _ => false

/-- Is an operation the unknown-item sentinel? -/
def isUnknownOp : Operation → Bool
  | .unknown_item => true
  | _ => false

/-- A separator match of `re.split(r'\s+and\s+|,\s*', text)` at the head of
the input; returns the remainder after the separator. -/
def sepMatch (cs : List Char) : Option (List Char) :=
  let sp := cs.takeWhile pyIsSpace
  if sp.isEmpty then
    match cs with
    | ',' :: rest => some (rest.dropWhile pyIsSpace)
    | _ => none
  else
    let rest := cs.drop sp.length
    if ("and".toList).isPrefixOf rest then
      let rest2 := rest.drop 3
      let sp2 := rest2.takeWhile pyIsSpace
      if sp2.isEmpty then none else some (rest2.drop sp2.length)
    else none

/-- Splitting scan: emit a segment at each separator (fuel-bounded; each
step consumes at least one character). -/
def splitGo : Nat → List Char → List Char → List (List Char)
  | 0, acc, cs => [acc.reverse ++ cs]
  | fuel + 1, acc, cs =>
    match sepMatch cs with
    | some rest => acc.reverse :: splitGo fuel [] rest
    | none =>
      match cs with
      | [] => [acc.reverse]
      | c :: rest => splitGo fuel (c :: acc) rest

/-- `re.split(r'\s+and\s+|,\s*', text)`. -/
def splitSegments (cs : List Char) : List (List Char) := splitGo (cs.length + 1) [] cs

/-- The eight (pattern, item, multiplier) rows of `shirt_patterns` and
`pants_patterns`, in the order the source iterates them. -/
def segPatterns : List (M × String × Int) :=
  [(patAddSym shirtNouns, "tshirts", 1), (patAddVerb shirtNouns, "tshirts", 1),
   (patRemSym shirtNouns, "tshirts", -1), (patRemVerb shirtNouns, "tshirts", -1),
   (patAddSym pantsNouns, "pants", 1), (patAddVerb pantsNouns, "pants", 1),
   (patRemSym pantsNouns, "pants", -1), (patRemVerb pantsNouns, "pants", -1)]

/-- The mutable extraction state of `extract_operations_from_query`: the
`operations` list and the `processed_operations` dedup keys. -/
structure ExtractSt where
  ops : List Operation
  keys : List (String × Int)
deriving Repr, DecidableEq

/-- Append an update unless its `item_change` key was already processed;
the flag reports whether the operation was newly added. -/
def addOp (st : ExtractSt) (item : String) (change : Int) : ExtractSt × Bool :=
  if (item, change) ∈ st.keys then (st, false)
  else (⟨st.ops ++ [.update item change], st.keys ++ [(item, change)]⟩, true)

/-- Process one quantity pattern over a segment (the `re.finditer` loop). -/
def runPattern (seg : List Char) (st : ExtractSt) (found : Bool) (pat : M)
    (item : String) (mult : Int) : ExtractSt × Bool :=
  (finditerM pat seg).foldl
    (fun acc r =>
      match r.q with
      | some q =>
        let step := addOp acc.1 item ((q : Int) * mult)
        (step.1, acc.2 || step.2)
      | none => acc)
    (st, found)

/-- Substring containment (`needle in haystack` on Python strings). -/
def containsSub (needle : List Char) : List Char → Bool
  | [] => needle.isEmpty
  | c :: t => needle.isPrefixOf (c :: t) || containsSub needle t

/-- `any(word in segment for word in ["shirt", "tshirt", "t-shirt", "tee"])`. -/
def segIsShirt (seg : List Char) : Bool :=
  containsSub "shirt".toList seg || containsSub "tshirt".toList seg ||
    containsSub "t-shirt".toList seg || containsSub "tee".toList seg

/-- The fallback `symbol_pattern` loop of a segment. -/
def runSymbol (seg : List Char) (st : ExtractSt) : ExtractSt :=
  (finditerM symbolPat seg).foldl
    (fun acc r =>
      match r.sign, r.q with
      | some sgn, some q =>
        let mult : Int := if sgn = '+' then 1 else -1
        let item := if segIsShirt seg then "tshirts" else "pants"
        (addOp acc item ((q : Int) * mult)).1
      | _, _ => acc)
    st

/-- Process one segment: skip blank segments, run the eight quantity
patterns, and only if none of them added an operation, the symbol
pattern. -/
def segStep (st : ExtractSt) (seg : List Char) : ExtractSt :=
  if seg.all pyIsSpace then st
  else
    let run := segPatterns.foldl
      (fun acc p => runPattern seg acc.1 acc.2 p.1 p.2.1 p.2.2) (st, false)
    if run.2 then run.1 else runSymbol seg run.1

/-- `extract_operations_from_query` of `main.py`. -/
def extract_operations_from_query (query : String) : List Operation :=
  let q := lowerChars query
  if searchB checkVocabM q && !searchB actionGuardM q then [.get]
  else if searchB unknownPat q then [.unknown_item]
  else
    let st := (splitSegments q).foldl segStep ⟨[], []⟩
    if !st.ops.isEmpty && st.ops.all isUpdateOp then st.ops ++ [.get] else st.ops

/-- The per-conversation state dictionary of `main.py` (an absent key
reads as the falsy `None`, the empty reset dictionary as all-absent). -/
structure ConvState where
  awaiting_clarification : Bool := false
  item : Option String := none
  action : Option String := none
  last_query : Option String := none
deriving Repr, DecidableEq

/-- Python truthiness of an optional string (`None` and `""` are falsy). -/
def optTruthy : Option String → Bool
  | none => false
  | some s => s ≠ ""

/-- `handle_clarification_response` of `main.py`. -/
def handle_clarification_response (query : String) (st : ConvState) : Option Operation :=
  if !st.awaiting_clarification then none
  else
    match firstStandaloneNat query with
    | none => none
    | some q =>
      match st.item, st.action with
      | some item, some action =>
        if item = "" ∨ action = "" then none
        else some (.update item (if action = "add" then (q : Int) else -(q : Int)))
      | _, _ => none

/-- How a `process_query` turn concludes, as far as the conversation
state is concerned.  `llm_path` marks that control reached the
LLM-fallback section (line 540 of `main.py`), whose effects depend on
the external completion service and are not modelled further. -/
inductive TurnResult where
  | clarification_request (state : ConvState)
  | clarification_resolved (state : ConvState) (op : Operation)
  | unknown_item_reply (state : ConvState)
  | direct_ops (state : ConvState) (ops : List Operation)
  | llm_path (state : ConvState)
deriving Repr, DecidableEq

/-- The reset state `conversation_states[conversation_id] = {}`. -/
def emptyConvState : ConvState := ⟨false, none, none, none⟩

/-- The conversation-state portion of one `process_query` turn, covering
every branch up to the LLM fallback: the clarification request, the
clarification resolution, the unknown-item reply and the direct-operation
reply, each paired with the conversation state left behind. -/
def process_query_turn (text : String) (st : ConvState) : TurnResult :=
  let nqc := needs_quantity_clarification text
  if nqc.1 && optTruthy nqc.2.1 && optTruthy nqc.2.2 then
    .clarification_request ⟨true, nqc.2.1, nqc.2.2, some text⟩
  else
    let clarOp := if st.awaiting_clarification then handle_clarification_response text st
      else none
    match clarOp with
    | some (.update i c) => .clarification_resolved emptyConvState (.update i c)
    | _ =>
      let dops := extract_operations_from_query text
      if dops.isEmpty then .llm_path st
      else if dops.any isUnknownOp then .unknown_item_reply st
      else .direct_ops st dops

/-! ## `mcp-server/app/inventory.py` — the inventory HTTP client

The network interactions are modelled as explicit parameters: `getResp`
is the outcome of the GET request (`Except` error = any raised
exception), and `postResp` maps the posted change to the outcome of the
POST (`Except` error = a 400 response or any raised exception). -/

/-- A Python `Dict[str, int]` as an association list with unique keys. -/
abbrev Inv := List (String × Int)

/-- `d.get(k, dflt)`. -/
def dictGet (d : Inv) (k : String) (dflt : Int) : Int :=
  match d.find? (fun p => p.1 == k) with
  | some p => p.2
  | none => dflt

/-- `if k in d: d[k] += v` on a copy of the dictionary. -/
def dictAdd (d : Inv) (k : String) (v : Int) : Inv :=
  if (d.find? (fun p => p.1 == k)).isSome then
    d.map (fun p => if p.1 = k then (p.1, p.2 + v) else p)
  else d

namespace Client

/-- The hard-coded fallback inventory of `InventoryClient.get_inventory`. -/
def defaultInventory : Inv := [("tshirts", 20), ("pants", 15)]

/-- `InventoryClient.get_inventory`: any exception from the GET request is
swallowed and the default inventory is returned instead. -/
def get_inventory (getResp : Except String Inv) : Inv :=
  match getResp with
  | .ok v => v
  | .error _ => defaultInventory

/-- `InventoryClient.update_inventory`: validates the item locally, then
performs the POST (the `change` argument is always an `Int` here, so the
`isinstance` check always passes). -/
def update_inventory (item : String) (postResp : Except String Inv) : Except String Inv :=
  if item = "tshirts" ∨ item = "pants" then postResp
  else .error "Invalid item"

/-- The clamp of `safe_update_inventory`:
`if change < 0 and abs(change) > current_qty: actual_change = -current_qty`. -/
def clampDelta (qty change : Int) : Int :=
  if change < 0 ∧ qty < |change| then -qty else change

/-- `InventoryClient.safe_update_inventory`: fetch the current inventory,
clamp the requested change against the current quantity, try the update,
and on any exception return a locally simulated inventory instead.
Returns `(inventory, previous quantity, applied change)`. -/
def safe_update_inventory (getResp : Except String Inv) (postResp : Int → Except String Inv)
    (item : String) (change : Int) : Inv × Int × Int :=
  let current := get_inventory getResp
  let qty := dictGet current item 0
  let actual := clampDelta qty change
  match update_inventory item (postResp actual) with
  | .ok upd => (upd, qty, actual)
  | .error _ => (dictAdd current item actual, qty, actual)

end Client

/-! ## `inventory-service/src/inventory/app.py` — the inventory service -/

namespace Service

/-- The in-memory inventory of `InventoryManager` (initialised with the
two fixed keys; `update_inventory` never adds a key). -/
structure SvcInv where
  tshirts : Int
  pants : Int
deriving Repr, DecidableEq

/-- The initial singleton state `{"tshirts": 20, "pants": 15}`. -/
def initialInventory : SvcInv := ⟨20, 15⟩

/-- The invariant that every stored count is non-negative. -/
def SvcInv.nonneg (s : SvcInv) : Prop := 0 ≤ s.tshirts ∧ 0 ≤ s.pants

instance (s : SvcInv) : Decidable s.nonneg := by
  unfold SvcInv.nonneg; infer_instance

/-- The service inventory as the dictionary returned by `get_inventory`. -/
def toDict (s : SvcInv) : Inv := [("tshirts", s.tshirts), ("pants", s.pants)]

/-- `InventoryManager.update_inventory`: reject an unknown item, reject a
change that would make the count negative, otherwise store and return
the new state (an `.error` result models a raised `ValueError`, which
leaves the stored dictionary untouched). -/
def update_inventory (s : SvcInv) (item : String) (change : Int) : Except String SvcInv :=
  if item = "tshirts" then
    if s.tshirts + change < 0 then .error "Cannot reduce tshirts below zero"
    else .ok ⟨s.tshirts + change, s.pants⟩
  else if item = "pants" then
    if s.pants + change < 0 then .error "Cannot reduce pants below zero"
    else .ok ⟨s.tshirts, s.pants + change⟩
  else .error "Invalid item"

/-- A JSON value (the payloads moving through `process_request`). -/
inductive JVal where
  | jnull
  | jbool (b : Bool)
  | jnum (n : Int)
  | jstr (s : String)
  | jarr (xs : List JVal)
  | jobj (fields : List (String × JVal))

/-- `event.get(k)` on a JSON object. -/
def jGet (fields : List (String × JVal)) (k : String) : Option JVal :=
  (fields.find? (fun p => p.1 == k)).map (fun p => p.2)

/-- Python truthiness of a JSON value. -/
def pyTruthy : JVal → Bool
  | .jnull => false
  | .jbool b => b
  | .jnum n => n ≠ 0
  | .jstr s => s ≠ ""
  | .jarr xs => !xs.isEmpty
  | .jobj fs => !fs.isEmpty

/-- Python `int(str)`: strip whitespace, allow one sign, require a
nonempty digit run (`none` models a raised `ValueError`). -/
def parseIntChars (cs : List Char) : Option Int :=
  let t := ((cs.dropWhile pyIsSpace).reverse.dropWhile pyIsSpace).reverse
  match t with
  | '-' :: ds =>
    if !ds.isEmpty && ds.all Char.isDigit then some (-(digitsVal ds : Int)) else none
  | '+' :: ds =>
    if !ds.isEmpty && ds.all Char.isDigit then some ((digitsVal ds : Int)) else none
  | ds =>
    if !ds.isEmpty && ds.all Char.isDigit then some ((digitsVal ds : Int)) else none

/-- Python `int(x)` on a JSON value (`none` models a raised
`ValueError`/`TypeError`). -/
def pyInt : JVal → Option Int
  | .jnum n => some n
  | .jbool b => some (if b then 1 else 0)
  | .jstr s => parseIntChars s.toList
  | _ => none

/-- `InventoryManager._parse_body`.  `jsonLoads` stands for the standard
library's `json.loads`, a parameter of the model (`none` = a raised
`JSONDecodeError`); the default body is the literal string `"\x7b\x7d"`. -/
def parse_body (jsonLoads : String → Option JVal) (event : List (String × JVal)) :
    Except String JVal :=
  match (jGet event "body").getD (.jstr "\x7b\x7d") with
  | .jstr s =>
    match jsonLoads s with
    | some v => .ok v
    | none => .error "Invalid JSON in request body"
  | .jobj fs => .ok (.jobj fs)
  | _ => .ok (.jobj [])

/-- `InventoryManager._validate_update_request`. -/
def validate_update_request (body : List (String × JVal)) : Except String (JVal × Int) :=
  let item := (jGet body "item").getD .jnull
  if !pyTruthy item then .error "Item is required"
  else
    match jGet body "change" with
    | none => .error "Change is required"
    | some .jnull => .error "Change is required"
    | some c =>
      match pyInt c with
      | some n => .ok (item, n)
      | none => .error "Change must be an integer"

/-- `update_inventory` called with an arbitrary JSON value as the item (a
non-string key is never in the inventory dictionary). -/
def updateJ (s : SvcInv) (item : JVal) (change : Int) : Except String SvcInv :=
  match item with
  | .jstr str => update_inventory s str change
  | _ => .error "Invalid item"

/-- The direct-Lambda-invocation branch of `process_request`
(`http_method is None`): an update when both keys are present, otherwise
a plain read. -/
def direct_invoke (s : SvcInv) (event : List (String × JVal)) :
    SvcInv × Except String SvcInv :=
  if (jGet event "item").isSome && (jGet event "change").isSome then
    match pyInt ((jGet event "change").getD .jnull) with
    | none => (s, .error "Change must be an integer")
    | some n =>
      match updateJ s ((jGet event "item").getD .jnull) n with
      | .ok s2 => (s2, .ok s2)
      | .error e => (s, .error e)
  else (s, .ok s)

/-- `InventoryManager.process_request`: returns the (possibly updated)
stored inventory together with the response (`ok` = an inventory
payload, `error` = an error payload); every raised exception is caught
and converted to an error response, leaving the state unchanged.  A
stored `null` http method and an absent one are both Python `None`. -/
def process_request (jsonLoads : String → Option JVal) (s : SvcInv)
    (event : List (String × JVal)) : SvcInv × Except String SvcInv :=
  match jGet event "httpMethod" with
  | some (.jstr m) =>
    if m = "GET" then (s, .ok s)
    else if m = "POST" then
      match parse_body jsonLoads event with
      | .error e => (s, .error e)
      | .ok (.jobj fs) =>
        match validate_update_request fs with
        | .error e => (s, .error e)
        | .ok (item, change) =>
          match updateJ s item change with
          | .ok s2 => (s2, .ok s2)
          | .error e => (s, .error e)
      | .ok _ => (s, .error "Internal server error")
    else (s, .error "Method not allowed")
  | some .jnull => direct_invoke s event
  | none => direct_invoke s event
  | some _ => (s, .error "Method not allowed")

/-- One call against the service: `get_inventory`, `update_inventory`
(raised errors leave the state unchanged), or `process_request`. -/
inductive SvcOp where
  | get
  | update (item : String) (change : Int)
  | request (event : List (String × JVal))

/-- The state transition of one service call. -/
def svcStep (jsonLoads : String → Option JVal) (s : SvcInv) : SvcOp → SvcInv
  | .get => s
  | .update item change =>
    match update_inventory s item change with
    | .ok s2 => s2
    | .error _ => s
  | .request ev => (process_request jsonLoads s ev).1

/-- The state after a sequence of service calls from the initial state. -/
def svcRun (jsonLoads : String → Option JVal) (ops : List SvcOp) : SvcInv :=
  ops.foldl (svcStep jsonLoads) initialInventory

end Service

/-- The client's `safe_update_inventory` wired to a live service holding
state `s`: the GET returns the service inventory and the POST applies the
service's `update_inventory`. -/
def safe_update_system (s : Service.SvcInv) (item : String) (change : Int) :
    Inv × Int × Int :=
  Client.safe_update_inventory (.ok (Service.toDict s))
    (fun actual => (Service.update_inventory s item actual).map Service.toDict)
    item change

/-! ## Lemmas about the matcher engine -/

lemma mem_mjoin {α β : Type} {f : α → List β} {l : List α} {b : β} :
    b ∈ mjoin f l ↔ ∃ a ∈ l, b ∈ f a := by
  induction l with
  | nil => simp [mjoin]
  | cons x xs ih => simp [mjoin, ih]

lemma mjoin_eq_nil {α β : Type} {f : α → List β} {l : List α}
    (h : ∀ a ∈ l, f a = []) : mjoin f l = [] := by
  induction l with
  | nil => rfl
  | cons x xs ih =>
    simp only [mjoin, h x (List.mem_cons_self x xs), List.nil_append]
    exact ih (fun a ha => h a (List.mem_cons_of_mem x ha))

/-- A matcher only consumes from the front: every result's remainder is a
suffix of the input. -/
def SuffixM (m : M) : Prop := ∀ prev cs r, r ∈ m prev cs → r.rest <:+ cs

lemma suffixM_mEps : SuffixM mEps := by
  intro prev cs r hr
  simp only [mEps, List.mem_singleton] at hr
  subst hr
  exact List.suffix_refl cs

lemma suffixM_litM (s : String) : SuffixM (litM s) := by
  intro prev cs r hr
  simp only [litM] at hr
  split at hr
  · simp only [List.mem_singleton] at hr
    subst hr
    exact List.drop_suffix _ _
  · simp at hr

lemma suffixM_altM (ms : List M) (h : ∀ m ∈ ms, SuffixM m) : SuffixM (altM ms) := by
  intro prev cs r hr
  unfold altM at hr
  rcases mem_mjoin.mp hr with ⟨m, hm, hrm⟩
  exact h m hm prev cs r hrm

lemma suffixM_litAlt (ss : List String) : SuffixM (litAlt ss) := by
  apply suffixM_altM
  intro m hm
  rcases List.mem_map.mp hm with ⟨s, _, rfl⟩
  exact suffixM_litM s

lemma suffixM_predPlus (p : Char → Bool) : SuffixM (predPlus p) := by
  intro prev cs r hr
  unfold predPlus at hr
  rcases List.mem_map.mp hr with ⟨i, _, rfl⟩
  exact List.drop_suffix _ _

lemma suffixM_predStar (p : Char → Bool) : SuffixM (predStar p) := by
  intro prev cs r hr
  unfold predStar at hr
  rcases List.mem_append.mp hr with h1 | h1
  · exact suffixM_predPlus p prev cs r h1
  · simp only [List.mem_singleton] at h1
    subst h1
    exact List.suffix_refl cs

lemma suffixM_capDigits : SuffixM capDigits := by
  intro prev cs r hr
  simp only [capDigits] at hr
  split at hr
  · simp at hr
  · simp only [List.mem_singleton] at hr
    subst hr
    exact List.drop_suffix _ _

lemma suffixM_capSign : SuffixM capSign := by
  intro prev cs r hr
  match cs, hr with
  | [], hr => exact absurd hr (List.not_mem_nil r)
  | c :: rest, hr =>
    simp only [capSign] at hr
    split at hr
    · simp only [List.mem_singleton] at hr
      subst hr
      exact ⟨[c], rfl⟩
    · exact absurd hr (List.not_mem_nil r)

lemma suffixM_wordB : SuffixM wordB := by
  intro prev cs r hr
  unfold wordB at hr
  split at hr
  · simp only [List.mem_singleton] at hr
    subst hr
    exact List.suffix_refl cs
  · simp at hr

lemma suffixM_nla (m : M) : SuffixM (nla m) := by
  intro prev cs r hr
  unfold nla at hr
  split at hr
  · simp only [List.mem_singleton] at hr
    subst hr
    exact List.suffix_refl cs
  · simp at hr

lemma suffixM_mseq {m1 m2 : M} (h1 : SuffixM m1) (h2 : SuffixM m2) :
    SuffixM (mseq m1 m2) := by
  intro prev cs r hr
  unfold mseq at hr
  rcases mem_mjoin.mp hr with ⟨r1, hr1, hrm⟩
  rcases List.mem_map.mp hrm with ⟨r2, hr2, rfl⟩
  exact (h2 r1.prev r1.rest r2 hr2).trans (h1 prev cs r1 hr1)

lemma suffixM_starM (body : M) (hb : SuffixM body) : ∀ fuel, SuffixM (starM fuel body) := by
  intro fuel
  induction fuel with
  | zero =>
    intro prev cs r hr
    simp only [starM, List.mem_singleton] at hr
    subst hr
    exact List.suffix_refl cs
  | succ n ih =>
    intro prev cs r hr
    simp only [starM] at hr
    rcases List.mem_append.mp hr with h1 | h1
    · rcases mem_mjoin.mp h1 with ⟨r1, hr1, hrm⟩
      split at hrm
      · rcases List.mem_map.mp hrm with ⟨r2, hr2, rfl⟩
        exact (ih r1.prev r1.rest r2 hr2).trans (hb prev cs r1 hr1)
      · simp at hrm
    · simp only [List.mem_singleton] at h1
      subst h1
      exact List.suffix_refl cs

lemma suffixM_starOf (body : M) (hb : SuffixM body) : SuffixM (starOf body) := by
  intro prev cs r hr
  exact suffixM_starM body hb (cs.length + 1) prev cs r hr

/-- A matcher that cannot match any digit-free input. -/
def NilOnNoDigit (m : M) : Prop :=
  ∀ prev cs, (∀ c ∈ cs, c.isDigit = false) → m prev cs = []

lemma noDigit_of_suffix {cs ds : List Char} (h : ∀ c ∈ cs, c.isDigit = false)
    (hs : ds <:+ cs) : ∀ c ∈ ds, c.isDigit = false :=
  fun c hc => h c (hs.subset hc)

lemma capDigits_nilOnNoDigit : NilOnNoDigit capDigits := by
  intro prev cs h
  unfold capDigits
  have ht : cs.takeWhile Char.isDigit = [] := by
    cases cs with
    | nil => rfl
    | cons c t =>
      simp [List.takeWhile_cons, h c (List.mem_cons_self c t)]
  simp [ht]

lemma nilOn_mseq_left {m1 m2 : M} (h : NilOnNoDigit m1) : NilOnNoDigit (mseq m1 m2) := by
  intro prev cs hnd
  unfold mseq
  rw [h prev cs hnd]
  rfl

lemma nilOn_mseq_right {m1 m2 : M} (hs : SuffixM m1) (h : NilOnNoDigit m2) :
    NilOnNoDigit (mseq m1 m2) := by
  intro prev cs hnd
  unfold mseq
  apply mjoin_eq_nil
  intro r1 hr1
  rw [h r1.prev r1.rest (noDigit_of_suffix hnd (hs prev cs r1 hr1))]
  rfl

lemma patAddSym_nilOnNoDigit (noun : M) : NilOnNoDigit (patAddSym noun) := by
  unfold patAddSym mseqL
  simp only [List.foldr]
  exact nilOn_mseq_right (suffixM_litAlt _)
    (nilOn_mseq_right (suffixM_predStar _) (nilOn_mseq_left capDigits_nilOnNoDigit))

lemma patAddVerb_nilOnNoDigit (noun : M) : NilOnNoDigit (patAddVerb noun) := by
  unfold patAddVerb mseqL
  simp only [List.foldr]
  exact nilOn_mseq_right (suffixM_litAlt _)
    (nilOn_mseq_right (suffixM_predPlus _) (nilOn_mseq_left capDigits_nilOnNoDigit))

lemma patRemSym_nilOnNoDigit (noun : M) : NilOnNoDigit (patRemSym noun) := by
  unfold patRemSym mseqL
  simp only [List.foldr]
  exact nilOn_mseq_right (suffixM_litAlt _)
    (nilOn_mseq_right (suffixM_predStar _) (nilOn_mseq_left capDigits_nilOnNoDigit))

lemma patRemVerb_nilOnNoDigit (noun : M) : NilOnNoDigit (patRemVerb noun) := by
  unfold patRemVerb mseqL
  simp only [List.foldr]
  exact nilOn_mseq_right (suffixM_litAlt _)
    (nilOn_mseq_right (suffixM_predPlus _) (nilOn_mseq_left capDigits_nilOnNoDigit))

lemma symbolPat_nilOnNoDigit : NilOnNoDigit symbolPat := by
  unfold symbolPat mseqL
  simp only [List.foldr]
  exact nilOn_mseq_right suffixM_capSign (nilOn_mseq_left capDigits_nilOnNoDigit)

lemma unknownPat_nilOnNoDigit : NilOnNoDigit unknownPat := by
  unfold unknownPat mseqL
  simp only [List.foldr]
  exact nilOn_mseq_right suffixM_wordB (nilOn_mseq_left capDigits_nilOnNoDigit)

lemma searchGo_none {m : M} (hm : NilOnNoDigit m) :
    ∀ cs prev, (∀ c ∈ cs, c.isDigit = false) → searchGo m prev cs = none := by
  intro cs
  induction cs with
  | nil =>
    intro prev h
    simp [searchGo, hm prev [] h]
  | cons c t ih =>
    intro prev h
    simp only [searchGo, hm prev (c :: t) h]
    exact ih (some c) (fun x hx => h x (List.mem_cons_of_mem c hx))

lemma searchB_false {m : M} (hm : NilOnNoDigit m) {cs : List Char}
    (h : ∀ c ∈ cs, c.isDigit = false) : searchB m cs = false := by
  simp [searchB, searchM, searchGo_none hm cs none h]

lemma finditerGo_nil {m : M} (hm : NilOnNoDigit m) :
    ∀ fuel prev cs, (∀ c ∈ cs, c.isDigit = false) → finditerGo m fuel prev cs = [] := by
  intro fuel
  cases fuel with
  | zero => intro prev cs _; rfl
  | succ n =>
    intro prev cs h
    simp [finditerGo, searchGo_none hm cs prev h]

lemma finditerM_nil {m : M} (hm : NilOnNoDigit m) {cs : List Char}
    (h : ∀ c ∈ cs, c.isDigit = false) : finditerM m cs = [] :=
  finditerGo_nil hm (cs.length + 1) none cs h

/-! ## Lemmas about the extractor on digit-free text -/

lemma noDigit_of_hasDigit_false {cs : List Char} (h : hasDigit cs = false) :
    ∀ c ∈ cs, c.isDigit = false := by
  intro c hc
  by_contra hcd
  have : hasDigit cs = true := List.any_eq_true.mpr ⟨c, hc, by simpa using hcd⟩
  rw [this] at h
  exact Bool.true_eq_false.mp h

lemma sepMatch_suffix {cs rest : List Char} (h : sepMatch cs = some rest) : rest <:+ cs := by
  simp only [sepMatch] at h
  split at h
  · split at h
    · injection h with h
      subst h
      exact (List.dropWhile_suffix pyIsSpace).trans (List.suffix_cons _ _)
    · exact absurd h (by simp)
  · split at h
    · split at h
      · exact absurd h (by simp)
      · injection h with h
        subst h
        exact ((List.drop_suffix _ _).trans (List.drop_suffix _ _)).trans
          (List.drop_suffix _ _)
    · exact absurd h (by simp)

lemma splitGo_chars :
    ∀ fuel acc cs, ∀ seg ∈ splitGo fuel acc cs, ∀ c ∈ seg, c ∈ acc ∨ c ∈ cs := by
  intro fuel
  induction fuel with
  | zero =>
    intro acc cs seg hseg c hc
    simp only [splitGo, List.mem_singleton] at hseg
    subst hseg
    rcases List.mem_append.mp hc with h | h
    · exact Or.inl (List.mem_reverse.mp h)
    · exact Or.inr h
  | succ n ih =>
    intro acc cs seg hseg c hc
    simp only [splitGo] at hseg
    split at hseg
    · rename_i rest hsep
      rcases List.mem_cons.mp hseg with h | h
      · subst h
        exact Or.inl (List.mem_reverse.mp hc)
      · rcases ih [] rest seg h c hc with h2 | h2
        · exact absurd h2 (List.not_mem_nil c)
        · exact Or.inr ((sepMatch_suffix hsep).subset h2)
    · cases cs with
      | nil =>
        have hs : seg = acc.reverse := List.mem_singleton.mp hseg
        subst hs
        exact Or.inl (List.mem_reverse.mp hc)
      | cons c2 t =>
        rcases ih (c2 :: acc) t seg hseg c hc with h2 | h2
        · rcases List.mem_cons.mp h2 with h3 | h3
          · exact Or.inr (by simp [h3])
          · exact Or.inl h3
        · exact Or.inr (List.mem_cons_of_mem c2 h2)

lemma splitSegments_chars {cs : List Char} :
    ∀ seg ∈ splitSegments cs, ∀ c ∈ seg, c ∈ cs := by
  intro seg hseg c hc
  rcases splitGo_chars (cs.length + 1) [] cs seg hseg c hc with h | h
  · exact absurd h (List.not_mem_nil c)
  · exact h

lemma runPattern_eq {seg : List Char} {pat : M} (h : finditerM pat seg = [])
    (st : ExtractSt) (found : Bool) (item : String) (mult : Int) :
    runPattern seg st found pat item mult = (st, found) := by
  unfold runPattern
  rw [h]
  rfl

lemma runSymbol_eq {seg : List Char} (h : finditerM symbolPat seg = [])
    (st : ExtractSt) : runSymbol seg st = st := by
  unfold runSymbol
  rw [h]
  rfl

lemma segStep_nil {seg : List Char} (hnd : ∀ c ∈ seg, c.isDigit = false)
    (st : ExtractSt) : segStep st seg = st := by
  unfold segStep
  split
  · rfl
  · simp only [segPatterns, List.foldl,
      runPattern_eq (finditerM_nil (patAddSym_nilOnNoDigit shirtNouns) hnd),
      runPattern_eq (finditerM_nil (patAddVerb_nilOnNoDigit shirtNouns) hnd),
      runPattern_eq (finditerM_nil (patRemSym_nilOnNoDigit shirtNouns) hnd),
      runPattern_eq (finditerM_nil (patRemVerb_nilOnNoDigit shirtNouns) hnd),
      runPattern_eq (finditerM_nil (patAddSym_nilOnNoDigit pantsNouns) hnd),
      runPattern_eq (finditerM_nil (patAddVerb_nilOnNoDigit pantsNouns) hnd),
      runPattern_eq (finditerM_nil (patRemSym_nilOnNoDigit pantsNouns) hnd),
      runPattern_eq (finditerM_nil (patRemVerb_nilOnNoDigit pantsNouns) hnd),
      runSymbol_eq (finditerM_nil symbolPat_nilOnNoDigit hnd)]
    simp

lemma foldl_segStep_nil {segs : List (List Char)}
    (h : ∀ seg ∈ segs, ∀ c ∈ seg, c.isDigit = false) (st : ExtractSt) :
    segs.foldl segStep st = st := by
  induction segs generalizing st with
  | nil => rfl
  | cons s ss ih =>
    simp only [List.foldl, segStep_nil (h s (List.mem_cons_self s ss)) st]
    exact ih (fun seg hseg => h seg (List.mem_cons_of_mem s hseg)) st

/-- On digit-free text the extractor can only return `[]` or `[Get]`. -/
lemma extract_noDigit {query : String} (h : hasDigit (lowerChars query) = false) :
    extract_operations_from_query query = [] ∨
      extract_operations_from_query query = [Operation.get] := by
  have hnd := noDigit_of_hasDigit_false h
  unfold extract_operations_from_query
  by_cases h1 : (searchB checkVocabM (lowerChars query)
      && !searchB actionGuardM (lowerChars query)) = true
  · rw [if_pos h1]
    exact Or.inr rfl
  · rw [if_neg h1, if_neg (by rw [searchB_false unknownPat_nilOnNoDigit hnd]; simp)]
    have hsegs : (splitSegments (lowerChars query)).foldl segStep ⟨[], []⟩ = ⟨[], []⟩ :=
      foldl_segStep_nil
        (fun seg hseg c hc => hnd c (splitSegments_chars seg hseg c hc)) _
    rw [hsegs]
    exact Or.inl rfl

lemma nqcGo_true_noDigit {q : List Char} :
    ∀ pats i a, nqcGo q pats = (true, i, a) → hasDigit q = false := by
  intro pats
  induction pats with
  | nil =>
    intro i a h
    simp [nqcGo] at h
  | cons p ps ih =>
    intro i a h
    rcases p with ⟨m, item, action⟩
    simp only [nqcGo] at h
    split at h
    · split at h
      · rename_i hd
        simpa using hd
      · exact ih i a h
    · exact ih i a h

/-! ## Lemmas about the inventory client and service -/

lemma clampDelta_spec (qty change : Int) (h0 : 0 ≤ qty) :
    (change < 0 → qty < |change| → Client.clampDelta qty change = -qty) ∧
    (-qty ≤ change → Client.clampDelta qty change = change) ∧
    0 ≤ qty + Client.clampDelta qty change := by
  have h1 : change ≤ |change| := le_abs_self change
  have h2 : -|change| ≤ change := neg_abs_le change
  unfold Client.clampDelta
  split
  · rename_i hc
    rcases hc with ⟨hneg, hlt⟩
    rw [abs_of_neg hneg] at hlt
    exact ⟨fun _ _ => rfl, fun hle => by omega, by omega⟩
  · rename_i hc
    rw [not_and_or, not_lt, not_lt] at hc
    refine ⟨fun hneg hlt => ?_, fun _ => rfl, ?_⟩
    · rcases hc with hc | hc
      · omega
      · omega
    · rcases hc with hc | hc
      · omega
      · omega

lemma dictGet_toDict_tshirts (s : Service.SvcInv) :
    dictGet (Service.toDict s) "tshirts" 0 = s.tshirts := rfl

lemma dictGet_toDict_pants (s : Service.SvcInv) :
    dictGet (Service.toDict s) "pants" 0 = s.pants := rfl

lemma svcUpdate_preserves {s s2 : Service.SvcInv} {item : String} {change : Int}
    (h : Service.update_inventory s item change = .ok s2) (hs : s.nonneg) : s2.nonneg := by
  unfold Service.update_inventory at h
  split at h
  · split at h
    · exact absurd h (by simp)
    · rename_i hneg
      injection h with h
      subst h
      exact ⟨by show (0 : Int) ≤ s.tshirts + change; omega, hs.2⟩
  · split at h
    · split at h
      · exact absurd h (by simp)
      · rename_i hneg
        injection h with h
        subst h
        exact ⟨hs.1, by show (0 : Int) ≤ s.pants + change; omega⟩
    · exact absurd h (by simp)

lemma updateJ_preserves {s s2 : Service.SvcInv} {item : Service.JVal} {change : Int}
    (h : Service.updateJ s item change = .ok s2) (hs : s.nonneg) : s2.nonneg := by
  unfold Service.updateJ at h
  split at h
  · exact svcUpdate_preserves h hs
  · exact absurd h (by simp)

lemma direct_invoke_preserves (s : Service.SvcInv) (ev : List (String × Service.JVal))
    (hs : s.nonneg) : (Service.direct_invoke s ev).1.nonneg := by
  unfold Service.direct_invoke
  repeat' split
  all_goals
    first
      | exact hs
      | (rename_i h; exact updateJ_preserves h hs)

lemma process_request_preserves (jl : String → Option Service.JVal) (s : Service.SvcInv)
    (ev : List (String × Service.JVal)) (hs : s.nonneg) :
    (Service.process_request jl s ev).1.nonneg := by
  unfold Service.process_request
  repeat' split
  all_goals
    first
      | exact hs
      | exact direct_invoke_preserves s ev hs
      | (rename_i h; exact updateJ_preserves h hs)

lemma svcStep_preserves (jl : String → Option Service.JVal) (s : Service.SvcInv)
    (op : Service.SvcOp) (hs : s.nonneg) : (Service.svcStep jl s op).nonneg := by
  cases op with
  | get => exact hs
  | update item change =>
    simp only [Service.svcStep]
    split
    · rename_i h
      exact svcUpdate_preserves h hs
    · exact hs
  | request ev => exact process_request_preserves jl s ev hs

lemma foldl_svcStep_nonneg (jl : String → Option Service.JVal) (ops : List Service.SvcOp) :
    ∀ s : Service.SvcInv, s.nonneg → (ops.foldl (Service.svcStep jl) s).nonneg := by
  induction ops with
  | nil => intro s hs; exact hs
  | cons op rest ih =>
    intro s hs
    exact ih (Service.svcStep jl s op) (svcStep_preserves jl s op hs)

/-! ## Claim theorems -/

/-- Claim C4 (amended): a query whose lowered text matches the
inventory-check vocabulary and does not match the action-guard
alternation `add|remove|sell|sold|buy|bought|ship|receive|update|\+|-`
(note: any literal `'-'`, e.g. the hyphen of `"t-shirts"`, matches the
guard) extracts exactly `[Get]`. -/
theorem c4_inventory_check_get (query : String)
    (h1 : searchB checkVocabM (lowerChars query) = true)
    (h2 : searchB actionGuardM (lowerChars query) = false) :
    extract_operations_from_query query = [Operation.get] := by
  simp [extract_operations_from_query, h1, h2]

/-- Witness for C4's amended theorem at "how many shirts do we have". -/
theorem c4_inventory_check_get_witness :
    searchB checkVocabM (lowerChars "how many shirts do we have") = true ∧
      searchB actionGuardM (lowerChars "how many shirts do we have") = false ∧
      extract_operations_from_query "how many shirts do we have" = [Operation.get] :=
  ⟨by decide, by decide, c4_inventory_check_get "how many shirts do we have"
    (by decide) (by decide)⟩

/-- Counterexample for claim C4: on "how many t-shirts do we have" the
extractor returns `[]`, not `[Get]` — the hyphen of "t-shirts" matches
the `-` alternative of the action guard. -/
theorem c4_counterexample :
    extract_operations_from_query "how many t-shirts do we have" = [] ∧
      extract_operations_from_query "how many t-shirts do we have" ≠ [Operation.get] := by
  have h : extract_operations_from_query "how many t-shirts do we have" = [] := by decide
  exact ⟨h, by rw [h]; decide⟩

/-- Claim C5: when the inventory-check branch does not fire and the
unknown-item pattern matches, the extractor returns exactly
`[UnknownItem]`, regardless of any valid-item text present. -/
theorem c5_unknown_item_precedence (query : String)
    (h1 : (searchB checkVocabM (lowerChars query)
        && !searchB actionGuardM (lowerChars query)) = false)
    (h2 : searchB unknownPat (lowerChars query) = true) :
    extract_operations_from_query query = [Operation.unknown_item] := by
  simp only [extract_operations_from_query, h1, h2]
  rfl

/-- Witness for C5 at "remove 5 hats". -/
theorem c5_unknown_item_precedence_witness :
    (searchB checkVocabM (lowerChars "remove 5 hats")
        && !searchB actionGuardM (lowerChars "remove 5 hats")) = false ∧
      searchB unknownPat (lowerChars "remove 5 hats") = true ∧
      extract_operations_from_query "remove 5 hats" = [Operation.unknown_item] :=
  ⟨by decide, by decide, c5_unknown_item_precedence "remove 5 hats" (by decide) (by decide)⟩

/-- Counterexample for claim C3: a failed GET does not propagate — the
client completes normally with the fabricated default inventory — and a
failed POST does not propagate — `safe_update_inventory` completes
normally with a locally simulated inventory. -/
theorem c3_counterexample :
    Client.get_inventory (Except.error "connection error") = Client.defaultInventory ∧
      Client.safe_update_inventory (Except.ok [("tshirts", 20), ("pants", 15)])
          (fun _ => Except.error "connection error") "tshirts" (-3) =
        ([("tshirts", 17), ("pants", 15)], 20, -3) :=
  ⟨rfl, by decide⟩

/-- Claim C3 (amended): a network failure in the GET is swallowed and the
default inventory `{tshirts: 20, pants: 15}` is returned; a network
failure (or API rejection) in the POST is swallowed and
`safe_update_inventory` returns the locally simulated inventory
(current plus the clamped delta) — neither failure propagates. -/
theorem c3_network_failure_fallback (msg pmsg : String) (inv : Inv) (item : String)
    (change : Int) :
    Client.get_inventory (Except.error msg) = Client.defaultInventory ∧
      Client.safe_update_inventory (Except.ok inv) (fun _ => Except.error pmsg) item change =
        (dictAdd inv item (Client.clampDelta (dictGet inv item 0) change),
          dictGet inv item 0, Client.clampDelta (dictGet inv item 0) change) := by
  refine ⟨rfl, ?_⟩
  by_cases hi : item = "tshirts" ∨ item = "pants" <;>
    simp [Client.safe_update_inventory, Client.update_inventory, Client.get_inventory, hi]

/-- Claim C9: every service state reachable from the initial inventory
by `get_inventory`, `update_inventory` and `process_request` calls has
non-negative counts, and `update_inventory` raises exactly on an invalid
item or a change that would drive a count negative. -/
theorem c9_inventory_nonneg :
    (∀ (jsonLoads : String → Option Service.JVal) (ops : List Service.SvcOp),
        (Service.svcRun jsonLoads ops).nonneg) ∧
      (∀ (s : Service.SvcInv) (item : String) (change : Int),
          ((item ≠ "tshirts" ∧ item ≠ "pants") ∨
            (item = "tshirts" ∧ s.tshirts + change < 0) ∨
            (item = "pants" ∧ s.pants + change < 0)) →
          ∃ msg, Service.update_inventory s item change = Except.error msg) := by
  constructor
  · intro jl ops
    exact foldl_svcStep_nonneg jl ops Service.initialInventory (by constructor <;> decide)
  · intro s item change h
    rcases h with ⟨h1, h2⟩ | ⟨h1, h2⟩ | ⟨h1, h2⟩
    · exact ⟨"Invalid item", by simp [Service.update_inventory, h1, h2]⟩
    · subst h1
      exact ⟨"Cannot reduce tshirts below zero", by simp [Service.update_inventory, h2]⟩
    · subst h1
      exact ⟨"Cannot reduce pants below zero", by simp [Service.update_inventory, h2]⟩

/-- Witness for C9: a run with a rejected over-removal and a direct
request keeps the counts non-negative, and an unknown item raises. -/
theorem c9_inventory_nonneg_witness :
    (Service.svcRun (fun _ => none)
        [Service.SvcOp.update "tshirts" (-100), Service.SvcOp.get,
          Service.SvcOp.update "pants" 5,
          Service.SvcOp.request [("httpMethod", Service.JVal.jstr "GET")]]).nonneg ∧
      ∃ msg, Service.update_inventory ⟨20, 15⟩ "shoes" 3 = Except.error msg :=
  ⟨c9_inventory_nonneg.1 (fun _ => none) _,
    c9_inventory_nonneg.2 ⟨20, 15⟩ "shoes" 3 (Or.inl ⟨by decide, by decide⟩)⟩

/-- Claim C1 (code behavior): on "add 2 shirts and 3 pants" the extractor
returns `[Update(tshirts, +2), Get]` — the split on "and" leaves the
second segment "3 pants" without any action verb or sign, so it yields
no operation and no pants update is produced. -/
theorem c1_compound_actual_behavior :
    extract_operations_from_query "add 2 shirts and 3 pants" =
        [Operation.update "tshirts" 2, Operation.get] ∧
      extract_operations_from_query "add 2 shirts and 3 pants" ≠
        [Operation.update "tshirts" 2, Operation.update "pants" 3, Operation.get] := by
  have h : extract_operations_from_query "add 2 shirts and 3 pants" =
      [Operation.update "tshirts" 2, Operation.get] := by decide
  exact ⟨h, by rw [h]; decide⟩

/-- Claim C10: "add 0 shirts" parses to a zero-change update plus the
trailing Get, and no quantity clarification is requested. -/
theorem c10_zero_quantity_update :
    extract_operations_from_query "add 0 shirts" =
        [Operation.update "tshirts" 0, Operation.get] ∧
      needs_quantity_clarification "add 0 shirts" = (false, none, none) :=
  ⟨by decide, by decide⟩

/-- Counterexample for claim C2: with a pending clarification for
(tshirts, add), the turn "add2shirts" resolves through direct extraction
(the digit is not standalone, so the clarification handler returns
nothing) and the conversation state is left untouched —
`awaiting_clarification` is still true after the turn. -/
theorem c2_counterexample :
    process_query_turn "add2shirts" ⟨true, some "tshirts", some "add", none⟩ =
        TurnResult.direct_ops ⟨true, some "tshirts", some "add", none⟩
          [Operation.update "tshirts" 2, Operation.get] ∧
      (⟨true, some "tshirts", some "add", none⟩ : ConvState) ≠ emptyConvState :=
  ⟨by decide, by decide⟩

/-- Claim C2 (amended): a turn that resolves through direct extraction
leaves the conversation state unchanged (a pending clarification is
carried past it), while a resolved clarification resets the state to
empty. -/
theorem c2_direct_extraction_state (text : String) (st st2 st3 : ConvState)
    (ops : List Operation) (op : Operation) :
    (process_query_turn text st = TurnResult.direct_ops st2 ops → st2 = st) ∧
      (process_query_turn text st = TurnResult.clarification_resolved st3 op →
        st3 = emptyConvState) := by
  constructor <;> intro h <;>
    simp only [process_query_turn] at h <;>
    (repeat' split at h) <;>
    first
      | (injection h with h1 h2; exact h1.symm)
      | exact absurd h (by simp)

/-- Witness for C2's amended theorem: a direct-extraction turn from the
awaiting state and a resolved clarification turn, at concrete inputs. -/
theorem c2_direct_extraction_state_witness :
    (⟨true, some "tshirts", some "add", none⟩ : ConvState) =
        ⟨true, some "tshirts", some "add", none⟩ ∧
      emptyConvState = emptyConvState :=
  ⟨(c2_direct_extraction_state "add2shirts" ⟨true, some "tshirts", some "add", none⟩
        ⟨true, some "tshirts", some "add", none⟩ emptyConvState
        [Operation.update "tshirts" 2, Operation.get]
        (Operation.update "tshirts" 3)).1 (by decide),
    (c2_direct_extraction_state "3" ⟨true, some "tshirts", some "add", none⟩
        ⟨true, some "tshirts", some "add", none⟩ emptyConvState
        [Operation.update "tshirts" 2, Operation.get]
        (Operation.update "tshirts" 3)).2 (by decide)⟩

/-- Counterexample for claim C6: on "get some shirts count" the
clarification detector fires, yet the extractor does not return the
empty list — the text also matches the inventory-check vocabulary, so
extraction returns `[Get]`. -/
theorem c6_counterexample :
    needs_quantity_clarification "get some shirts count" =
        (true, some "tshirts", some "add") ∧
      extract_operations_from_query "get some shirts count" = [Operation.get] ∧
      extract_operations_from_query "get some shirts count" ≠ [] := by
  have h : extract_operations_from_query "get some shirts count" = [Operation.get] := by
    decide
  exact ⟨by decide, h, by rw [h]; decide⟩

/-- Claim C6 (amended): when `needs_quantity_clarification` fires, the
lowered text contains no digit, and the extractor returns either the
empty list or the single `[Get]` (the latter when the text also matches
the inventory-check branch). -/
theorem c6_clarification_digit_free (query : String) (i a : Option String)
    (h : needs_quantity_clarification query = (true, i, a)) :
    hasDigit (lowerChars query) = false ∧
      (extract_operations_from_query query = [] ∨
        extract_operations_from_query query = [Operation.get]) := by
  have hnd : hasDigit (lowerChars query) = false :=
    nqcGo_true_noDigit nqcPatterns i a h
  exact ⟨hnd, extract_noDigit hnd⟩

/-- Witness for C6's amended theorem at "add some shirts". -/
theorem c6_clarification_digit_free_witness :
    hasDigit (lowerChars "add some shirts") = false ∧
      (extract_operations_from_query "add some shirts" = [] ∨
        extract_operations_from_query "add some shirts" = [Operation.get]) :=
  c6_clarification_digit_free "add some shirts" (some "tshirts") (some "add") (by decide)

/-- Claim C7: against a service with non-negative stock,
`safe_update_inventory` reports an applied delta of minus the current
quantity when a negative change exceeds stock, applies the requested
delta unchanged when it is within stock, and the resulting count (the
previous quantity plus the applied delta) is never negative. -/
theorem c7_safe_update_clamp (s : Service.SvcInv) (item : String) (change : Int)
    (h0 : s.nonneg) (hi : item = "tshirts" ∨ item = "pants") :
    (change < 0 → dictGet (Service.toDict s) item 0 < |change| →
        (safe_update_system s item change).2.2 = -(dictGet (Service.toDict s) item 0)) ∧
      (-(dictGet (Service.toDict s) item 0) ≤ change →
        (safe_update_system s item change).2.2 = change) ∧
      dictGet (safe_update_system s item change).1 item 0 =
        dictGet (Service.toDict s) item 0 + (safe_update_system s item change).2.2 ∧
      0 ≤ dictGet (safe_update_system s item change).1 item 0 := by
  rcases hi with rfl | rfl
  · have hcs := clampDelta_spec s.tshirts change h0.1
    have hnn : ¬(s.tshirts + Client.clampDelta s.tshirts change < 0) := by omega
    have hupd : Service.update_inventory s "tshirts" (Client.clampDelta s.tshirts change) =
        .ok ⟨s.tshirts + Client.clampDelta s.tshirts change, s.pants⟩ := by
      unfold Service.update_inventory
      rw [if_pos rfl, if_neg hnn]
    have key : safe_update_system s "tshirts" change =
        (Service.toDict ⟨s.tshirts + Client.clampDelta s.tshirts change, s.pants⟩,
          s.tshirts, Client.clampDelta s.tshirts change) := by
      simp [safe_update_system, Client.safe_update_inventory, Client.get_inventory,
        Client.update_inventory, dictGet_toDict_tshirts, hupd, Except.map]
    rw [dictGet_toDict_tshirts, key]
    refine ⟨fun hneg hlt => hcs.1 hneg hlt, fun hle => hcs.2.1 hle, rfl, ?_⟩
    rw [show dictGet
        (Service.toDict ⟨s.tshirts + Client.clampDelta s.tshirts change, s.pants⟩,
          s.tshirts, Client.clampDelta s.tshirts change).1 "tshirts" 0 =
        s.tshirts + Client.clampDelta s.tshirts change from rfl]
    omega
  · have hcs := clampDelta_spec s.pants change h0.2
    have hnn : ¬(s.pants + Client.clampDelta s.pants change < 0) := by omega
    have hupd : Service.update_inventory s "pants" (Client.clampDelta s.pants change) =
        .ok ⟨s.tshirts, s.pants + Client.clampDelta s.pants change⟩ := by
      unfold Service.update_inventory
      rw [if_neg (by decide), if_pos rfl, if_neg hnn]
    have key : safe_update_system s "pants" change =
        (Service.toDict ⟨s.tshirts, s.pants + Client.clampDelta s.pants change⟩,
          s.pants, Client.clampDelta s.pants change) := by
      simp [safe_update_system, Client.safe_update_inventory, Client.get_inventory,
        Client.update_inventory, dictGet_toDict_pants, hupd, Except.map]
    rw [dictGet_toDict_pants, key]
    refine ⟨fun hneg hlt => hcs.1 hneg hlt, fun hle => hcs.2.1 hle, rfl, ?_⟩
    rw [show dictGet
        (Service.toDict ⟨s.tshirts, s.pants + Client.clampDelta s.pants change⟩,
          s.pants, Client.clampDelta s.pants change).1 "pants" 0 =
        s.pants + Client.clampDelta s.pants change from rfl]
    omega

/-- Witness for C7 at the spec's example: stock 20, request −1000,
applied delta −20. -/
theorem c7_safe_update_clamp_witness :
    (safe_update_system ⟨20, 15⟩ "tshirts" (-1000)).2.2 =
        -(dictGet (Service.toDict ⟨20, 15⟩) "tshirts" 0) ∧
      -(dictGet (Service.toDict ⟨20, 15⟩) "tshirts" 0) = -20 :=
  ⟨(c7_safe_update_clamp ⟨20, 15⟩ "tshirts" (-1000) ⟨by decide, by decide⟩
      (Or.inl rfl)).1 (by decide) (by decide), by decide⟩

/-- Claim C8: `handle_clarification_response` builds
`Update(item, +q)` for a pending add and `Update(item, −q)` for a
pending remove, with `q` the first standalone integer of the reply, and
returns nothing exactly when no clarification is pending, the reply has
no standalone integer, or the pending item or action is missing. -/
theorem c8_clarification_response (text : String) (st : ConvState) :
    (st.awaiting_clarification = true → ∀ q item, firstStandaloneNat text = some q →
      st.item = some item → item ≠ "" →
      ((st.action = some "add" →
          handle_clarification_response text st = some (Operation.update item (q : Int))) ∧
        (st.action = some "remove" →
          handle_clarification_response text st =
            some (Operation.update item (-(q : Int)))))) ∧
      (handle_clarification_response text st = none ↔
        (st.awaiting_clarification = false ∨ firstStandaloneNat text = none ∨
          optTruthy st.item = false ∨ optTruthy st.action = false)) := by
  obtain ⟨a, it, ac, lq⟩ := st
  constructor
  · intro ha q item hq hitem hne
    simp only at ha hitem
    subst ha
    subst hitem
    constructor
    · intro hact
      simp only at hact
      subst hact
      simp [handle_clarification_response, hq, hne]
    · intro hact
      simp only at hact
      subst hact
      simp [handle_clarification_response, hq, hne]
  · cases a
    · simp [handle_clarification_response, optTruthy]
    · cases hq : firstStandaloneNat text with
      | none => simp [handle_clarification_response, hq, optTruthy]
      | some q =>
        cases it with
        | none => simp [handle_clarification_response, hq, optTruthy]
        | some s1 =>
          cases ac with
          | none => simp [handle_clarification_response, hq, optTruthy]
          | some s2 =>
            by_cases h1 : s1 = "" <;> by_cases h2 : s2 = "" <;>
              simp [handle_clarification_response, hq, optTruthy, h1, h2]

/-- Witness for C8: pending (tshirts, add) with reply "3" resolves to
`Update(tshirts, +3)`. -/
theorem c8_clarification_response_witness :
    handle_clarification_response "3" ⟨true, some "tshirts", some "add", none⟩ =
      some (Operation.update "tshirts" (3 : Int)) :=
  ((c8_clarification_response "3" ⟨true, some "tshirts", some "add", none⟩).1 rfl 3
    "tshirts" (by decide) rfl (by decide)).1 rfl

end InventoryRepo
